import Mathlib

/-!
Verification of the fluent-rest-tester dependency resolver and cleanup
orchestrator.  The definitions below are a shallow embedding of the
JavaScript source (the `fluent_rest_tester` class): field-value synthesis
(`make_test_object`), path lookup (`find_resource_def`), API binding
(`get_api_for_def`), recursive fixture creation (`create_resource_from_def`),
dependency cleanup (`delete_dependent_resources`) and the orphan-queue drain
(`cleanup_orphans`).  Mutable per-definition state (`lastInstance`, the
orphan queue) is threaded explicitly through a state record `St`; remote
HTTP behaviour and random value generation are supplied by a deterministic
environment `Env`; recursion on dependency references (unguarded in the
source) is bounded by explicit fuel.
-/

namespace FluentRestTester

/-- Synthesized JSON-ish field values. -/
inductive JVal where
  | str (s : String)
  | num (n : Nat)
  | bool (b : Bool)
  | obj
  deriving DecidableEq, Repr

/-- A field definition (class `field_def` in the source): name, type string,
optional max length, ignore flag, optional dependency reference `from`,
enumerated candidate values, and the `dont_delete` flag. -/
structure FieldDef where
  name : String
  type : String
  max_length : Option Nat
  ignore : Bool
  from_ : Option String
  values : List JVal
  dont_delete : Bool
  deriving DecidableEq, Repr

/-- A resource definition node: name, fields, and owned children
(`create_resource_defs` builds this tree from the YAML config). -/
inductive RNode where
  | mk (name : String) (fields : List FieldDef) (children : List RNode)

/-- The resource name of a node. -/
def RNode.name : RNode → String
  | .mk n _ _ => n

/-- The field definitions of a node. -/
def RNode.fields : RNode → List FieldDef
  | .mk _ fs _ => fs

/-- The child resource definitions of a node. -/
def RNode.children : RNode → List RNode
  | .mk _ _ cs => cs

/-- An unresolved dependency recorded by `make_test_object`:
`{ field, from }`. -/
structure Dep where
  field : String
  from_ : String
  deriving DecidableEq, Repr

/-- A resource body returned by the remote create call:
`{ id, message? }`. -/
structure Res where
  id : String
  message : Option String
  deriving DecidableEq, Repr

/-- A remote create result: `{ resource }` (the resource body may be
missing, in which case dependents treat the creation as failed). -/
structure CResult where
  resource : Option Res
  deriving DecidableEq, Repr

/-- The cached `lastInstance` slot content: `{ id, obj }` where `obj` is
the full create result. -/
structure Inst where
  id : String
  obj : CResult
  deriving DecidableEq, Repr

/-- One step of a bound API handle: the member name invoked and the id
arguments passed (`name()` or `singular_name(parent_id)`). -/
structure ApiStep where
  name : String
  args : List String
  deriving DecidableEq, Repr

/-- A remote call observed at the client boundary.  A definition is
identified by its canonical path in the definition tree. -/
inductive CallRec where
  | create (path : List String)
  | delete (path : List String) (id : String)
  deriving DecidableEq, Repr

/-- Errors: exhausted recursion fuel, a JavaScript TypeError (member access
on null/undefined), a missing resource definition for a dependency path, or
a failed dependency creation. -/
inductive Err where
  | fuel
  | typeError
  | noDef (s : String)
  | createErr (s : String)
  deriving DecidableEq, Repr

/-- Mutable state threaded through the run: the `lastInstance` slots (keyed
by definition path), the orphan queue `_cleanups` (definition path with the
recorded id), and the chronological log of remote calls issued. -/
structure St where
  last : List (List String × Inst)
  cleanups : List (List String × String)
  calls : List CallRec
  deriving DecidableEq, Repr

/-- Look up a `lastInstance` slot by definition path. -/
def lookupLast (m : List (List String × Inst)) (p : List String) : Option Inst :=
  (m.find? (fun e => e.1 == p)).map (fun e => e.2)

/-- The `lastInstance` slot of the definition at path `p`. -/
def St.getLast (st : St) (p : List String) : Option Inst :=
  lookupLast st.last p

/-- Set the `lastInstance` slot (the source only assigns it when it is
currently unset). -/
def St.setLast (st : St) (p : List String) (i : Inst) : St :=
  { st with last := (p, i) :: st.last }

/-- Clear the `lastInstance` slot (`temp_def.last = null`). -/
def St.clearLast (st : St) (p : List String) : St :=
  { st with last := st.last.filter (fun e => !(e.1 == p)) }

/-- Record a remote call at the client boundary. -/
def St.logCall (st : St) (c : CallRec) : St :=
  { st with calls := st.calls ++ [c] }

/-- Push an entry `{ def, id }` onto the orphan queue `_cleanups`. -/
def St.pushCleanup (st : St) (p : List String) (i : String) : St :=
  { st with cleanups := st.cleanups ++ [(p, i)] }

/-- A synthesized candidate object: an ordered field-name/value map. -/
abbrev Obj := List (String × JVal)

/-- JavaScript object assignment `o[k] = v`: replace an existing key in
place, otherwise append. -/
def setKey (o : Obj) (k : String) (v : JVal) : Obj :=
  if o.any (fun e => e.1 == k) then
    o.map (fun e => if e.1 == k then (k, v) else e)
  else
    o ++ [(k, v)]

/-- The parent-reference sentinel `"<parent>"`. -/
def parent_ref : String := "<parent>"

/-- The environment: the definition tree roots, the singularization rule,
deterministic stand-ins for the random/time/uuid generators, and the remote
client behaviour (create and delete responses as pure functions of the
bound API handle and payload). -/
structure Env where
  alldefs : List RNode
  singular : String → String
  now : String
  uuidv : String
  randBelow : Nat → Nat
  randNum : Nat
  draw : Nat
  randString : Nat → String
  create_resp : List ApiStep → Obj → Option CResult
  delete_resp : List ApiStep → String → Nat

/-- View of `def.parent` needed by `make_test_object`: the parent's name
and its current `lastInstance`. -/
structure ParentInfo where
  name : String
  last : Option Inst

/-- What `make_test_object` does with one field: assign a synthesized
value, record an unresolved dependency, or leave the field absent. -/
inductive FAct where
  | assign (v : JVal)
  | dep (d : Dep)
  | skip
  deriving DecidableEq, Repr

/-- Per-field behaviour of `make_test_object`: a `from` field is either the
parent shortcut (use `def.parent.last.id` if live, otherwise record a
dependency on the parent's name) or a recorded dependency on the `from`
path; otherwise a non-empty `values` list yields a random pick; otherwise
the value is synthesized by type, with unlisted types (including
`timestamp`, `sequence` and the explicit `binary` no-op) left absent. -/
def field_action (env : Env) (parent : Option ParentInfo) (f : FieldDef) :
    Except Err FAct :=
  match f.from_ with
  | some frm =>
    if frm == parent_ref then
      match parent with
      | none => .error .typeError
      | some p =>
        match p.last with
        | some i => .ok (.assign (.str i.id))
        | none => .ok (.dep ⟨f.name, p.name⟩)
    else .ok (.dep ⟨f.name, frm⟩)
  | none =>
    if f.values.length > 0 then
      .ok (.assign (f.values.getD (env.randBelow f.values.length) (.str "")))
    else
      match f.type with
      | "number" => .ok (.assign (.num env.randNum))
      | "string" => .ok (.assign (.str (env.randString (f.max_length.getD 512))))
      | "date" => .ok (.assign (.str env.now))
      | "uuid" => .ok (.assign (.str env.uuidv))
      | "bool" => .ok (.assign (.bool ((env.draw + 1) % 2 == 0)))
      | "json" => .ok (.assign .obj)
      | _ => .ok .skip

/-- The output of `make_test_object`: the partially filled instance and the
unresolved dependencies, in field order. -/
structure MkOut where
  inst : Obj
  deps : List Dep
  deriving DecidableEq, Repr

/-- Field-by-field loop of `make_test_object`. -/
def mto_go (env : Env) (parent : Option ParentInfo) :
    List FieldDef → Obj → List Dep → Except Err MkOut
  | [], o, ds => .ok ⟨o, ds⟩
  | f :: rest, o, ds =>
    match field_action env parent f with
    | .error e => .error e
    | .ok (.assign v) => mto_go env parent rest (setKey o f.name v) ds
    | .ok (.dep d) => mto_go env parent rest o (ds ++ [d])
    | .ok .skip => mto_go env parent rest o ds

/-- `make_test_object(def)`: synthesize a candidate object for the given
fields and collect unresolved dependency references. -/
def make_test_object (env : Env) (parent : Option ParentInfo)
    (fields : List FieldDef) : Except Err MkOut :=
  mto_go env parent fields [] []

/-- First sibling whose name equals the segment (the inner `for` loop of
`find_resource_def`). -/
def child_find (defs : List RNode) (seg : String) : Option RNode :=
  defs.find? (fun d => d.name == seg)

/-- Segment loop of `find_resource_def`: on a match, descend into the
matched node's children and remember it as `current`; on no match, keep the
same candidate list and `current` and move on to the next segment.  The
canonical tree path of `current` is tracked alongside it. -/
def frd_loop : List String → List RNode → List String →
    Option (RNode × List String) → Option (RNode × List String)
  | [], _, _, cur => cur
  | seg :: rest, defs, pfx, cur =>
    match child_find defs seg with
    | some d => frd_loop rest d.children (pfx ++ [seg]) (some (d, pfx ++ [seg]))
    | none => frd_loop rest defs pfx cur

/-- Character-level splitter implementing JavaScript `String.split(sep)`
for a single-character separator. -/
def split_chars (sep : Char) : List Char → List String
  | [] => [""]
  | c :: rest =>
    let r := split_chars sep rest
    if c == sep then "" :: r
    else
      match r with
      | [] => [String.mk [c]]
      | h :: t => String.mk (c :: h.toList) :: t

/-- JavaScript `name.split('/')`. -/
def split_slash (s : String) : List String :=
  split_chars (Char.ofNat 47) s.toList

/-- `find_resource_def(name)`: split the dotted path on `/` and run the
segment loop from the tree roots. -/
def find_resource_def (all : List RNode) (name : String) :
    Option (RNode × List String) :=
  frd_loop (split_slash name) all [] none

/-- Build the API invocation chain for a root-to-definition name chain.
A segment whose remaining-chain length is even is invoked through its
singular name with the (single, fixed) parent id as sole argument; an odd
segment is invoked by name with no arguments.  `pid` is
`def.parent.last.id`; if it is unavailable when an even segment needs it,
the source throws (`TypeError`). -/
def api_steps (sing : String → String) (pid : Option String) :
    List String → Except Err (List ApiStep)
  | [] => .ok []
  | n :: rest =>
    if (rest.length + 1) % 2 == 0 then
      match pid with
      | none => .error .typeError
      | some i =>
        match api_steps sing pid rest with
        | .error e => .error e
        | .ok tail => .ok (⟨sing n, [i]⟩ :: tail)
    else
      match api_steps sing pid rest with
      | .error e => .error e
      | .ok tail => .ok (⟨n, []⟩ :: tail)

/-- `get_api_for_def(def)`: the root-to-definition chain is the canonical
path; the id pushed at every even segment is always the immediate parent's
`lastInstance.id` of the definition being bound. -/
def get_api_for_def (env : Env) (lastm : List (List String × Inst))
    (path : List String) : Except Err (List ApiStep) :=
  let pid : Option String :=
    match path.dropLast with
    | [] => none
    | pp => (lookupLast lastm pp).map (fun i => i.id)
  api_steps env.singular pid path

/-- The name of `def.parent`, read off the canonical path. -/
def parentName (path : List String) : Option String :=
  match path.dropLast with
  | [] => none
  | pp => some (pp.getLastD "")

/-- The `def.parent` view (name and current `lastInstance`) for
`make_test_object`, read off the canonical path and the state. -/
def parentInfo (st : St) (path : List String) : Option ParentInfo :=
  match path.dropLast with
  | [] => none
  | pp => some ⟨pp.getLastD "", st.getLast pp⟩

/-- A definition handle: the tree node together with its canonical path
(the path plays the role of the node's mutable identity). -/
structure DefRef where
  node : RNode
  path : List String

/-- The dependency loop of `create_resource_from_def`: for each recorded
dependency in order, look up the referenced definition, recursively create
it, and assign the resulting resource id into the candidate object; a
missing definition or a failed creation throws. -/
def run_deps (create : DefRef → St → Except Err (Option CResult × St))
    (all : List RNode) : List Dep → Obj → St → Except Err (Obj × St)
  | [], o, st => .ok (o, st)
  | dep :: rest, o, st =>
    match find_resource_def all dep.from_ with
    | none => .error (.noDef dep.from_)
    | some (n, p) =>
      match create ⟨n, p⟩ st with
      | .error e => .error e
      | .ok (resp, st1) =>
        match resp with
        | none => .error (.createErr dep.from_)
        | some r =>
          match r.resource with
          | none => .error (.createErr dep.from_)
          | some res => run_deps create all rest (setKey o dep.field (.str res.id)) st1

/-- The tail of `create_resource_from_def` (source lines 777-786): only
after the candidate object is fully populated is `def.last` consulted; if
unset, bind the API, issue the create call, and cache
`{ id: result.resource.id, obj: result }` whenever the result is truthy
(with no inspection of an error message); if set, return the cached
result. -/
def finish_create (env : Env) (d : DefRef) (obj : Obj) (st : St) :
    Except Err (Option CResult × St) :=
  match st.getLast d.path with
  | some i => .ok (some i.obj, st)
  | none =>
    match get_api_for_def env st.last d.path with
    | .error e => .error e
    | .ok steps =>
      let st1 := st.logCall (.create d.path)
      match env.create_resp steps obj with
      | none => .ok (none, st1)
      | some r =>
        match r.resource with
        | none => .error .typeError
        | some res => .ok (some r, st1.setLast d.path ⟨res.id, r⟩)

/-- `create_resource_from_def(def)`: synthesize the candidate object,
resolve every recorded dependency depth-first (recursively creating each
referenced definition), then run the creation tail.  Recursion is bounded
by fuel since the source has no cycle guard. -/
def create_resource_from_def (env : Env) :
    Nat → DefRef → St → Except Err (Option CResult × St)
  | 0, _, _ => .error .fuel
  | fuel + 1, d, st =>
    match make_test_object env (parentInfo st d.path) d.node.fields with
    | .error e => .error e
    | .ok mk =>
      match run_deps (create_resource_from_def env fuel) env.alldefs mk.deps mk.inst st with
      | .error e => .error e
      | .ok (obj, st1) => finish_create env d obj st1

/-- Character-list prefix test. -/
def list_prefix : List Char → List Char → Bool
  | [], _ => true
  | _ :: _, [] => false
  | a :: as, b :: bs => a == b && list_prefix as bs

/-- Does `pat` occur in the haystack at any position (including the empty
suffix)? -/
def contains_sub_go (pat : List Char) : List Char → Bool
  | [] => list_prefix pat []
  | c :: rest => list_prefix pat (c :: rest) || contains_sub_go pat rest

/-- Substring containment, the semantics of a non-negative JavaScript
`String.indexOf` result. -/
def contains_sub (s sub : String) : Bool :=
  contains_sub_go sub.toList s.toList

/-- The per-field body of `delete_dependent_resources`: skip fields without
a non-parent `from`; look up the referenced definition and skip if it has
no live instance; defer to the orphan queue (without clearing the slot)
when `dont_delete` is set or the immediate parent's name contains the
`from` string; otherwise recursively clean the referenced definition,
bind its API, issue the delete, push an orphan entry when the status is
not 204, and clear the slot in every case. -/
def process_field (env : Env) (recur : DefRef → St → Except Err St)
    (d : DefRef) (f : FieldDef) (st : St) : Except Err St :=
  match f.from_ with
  | none => .ok st
  | some frm =>
    if frm == parent_ref then .ok st
    else
      match find_resource_def env.alldefs frm with
      | none => .error (.noDef frm)
      | some (tn, tp) =>
        match st.getLast tp with
        | none => .ok st
        | some inst =>
          if (!f.dont_delete &&
              (match parentName d.path with
               | none => true
               | some pn => !(contains_sub pn frm))) then
            match recur ⟨tn, tp⟩ st with
            | .error e => .error e
            | .ok st1 =>
              match get_api_for_def env st1.last tp with
              | .error e => .error e
              | .ok steps =>
                match st1.getLast tp with
                | none => .error .typeError
                | some inst1 =>
                  let status := env.delete_resp steps inst1.id
                  let st2 := st1.logCall (.delete tp inst1.id)
                  let st3 := if status != 204 then st2.pushCleanup tp inst1.id else st2
                  .ok (st3.clearLast tp)
          else
            .ok (st.pushCleanup tp inst.id)

/-- The field loop of `delete_dependent_resources`. -/
def run_fields (pf : FieldDef → St → Except Err St) :
    List FieldDef → St → Except Err St
  | [], st => .ok st
  | f :: rest, st =>
    match pf f st with
    | .error e => .error e
    | .ok st1 => run_fields pf rest st1

/-- `delete_dependent_resources(def)`: a no-op when the definition has no
live instance; otherwise process every field in order. -/
def delete_dependent_resources (env : Env) :
    Nat → DefRef → St → Except Err St
  | 0, _, _ => .error .fuel
  | fuel + 1, d, st =>
    match st.getLast d.path with
    | none => .ok st
    | some _ =>
      run_fields (process_field env (delete_dependent_resources env fuel) d) d.node.fields st

/-- The drain loop of `cleanup_orphans`: pop the oldest entry, skip it when
its id was already processed in this pass, otherwise bind the definition's
API and issue a delete (result ignored), recording the id as processed. -/
def drain_go (env : Env) :
    List (List String × String) → List String → St → Except Err St
  | [], _, st => .ok st
  | e :: rest, deleted, st =>
    if deleted.contains e.2 then drain_go env rest deleted st
    else
      match get_api_for_def env st.last e.1 with
      | .error er => .error er
      | .ok _steps => drain_go env rest (e.2 :: deleted) (st.logCall (.delete e.1 e.2))

/-- `cleanup_orphans()`: drain the whole orphan queue once, deduplicating
by id. -/
def cleanup_orphans (env : Env) (st : St) : Except Err St :=
  drain_go env st.cleanups [] { st with cleanups := [] }

/-- The `field_def.valid_types` list of the source. -/
def valid_types : List String :=
  ["sequence", "number", "string", "date", "timestamp", "json", "uuid", "bool", "binary"]

/-- The `field_def` constructor's type check: a type is recognized when it
occurs in `valid_types`. -/
def field_type_recognized (t : String) : Bool :=
  valid_types.contains t

/-- Number of remote create calls logged for a given definition path. -/
def countCreate (p : List String) (cs : List CallRec) : Nat :=
  (cs.filter (fun c => c == .create p)).length

/-- Is this call a remote delete for the given instance id? -/
def isDeleteFor (i : String) : CallRec → Bool
  | .delete _ j => j == i
  | _ => false

/-- Number of remote delete calls logged for a given instance id. -/
def countDeleteId (i : String) (cs : List CallRec) : Nat :=
  (cs.filter (isDeleteFor i)).length

/-- First-occurrence deduplication of orphan-queue entries by id, seeded
with a set of already-processed ids. -/
def dedup_by_id : List (List String × String) → List String →
    List (List String × String)
  | [], _ => []
  | e :: rest, seen =>
    if seen.contains e.2 then dedup_by_id rest seen
    else e :: dedup_by_id rest (e.2 :: seen)

/-! ### State-operation lemmas -/

/-- Setting a slot makes it visible. -/
theorem getLast_setLast_self (st : St) (p : List String) (i : Inst) :
    (st.setLast p i).getLast p = some i := by
  simp [St.setLast, St.getLast, lookupLast, List.find?]

/-- Setting one slot leaves the others unchanged. -/
theorem getLast_setLast_ne (st : St) (p q : List String) (i : Inst)
    (h : q ≠ p) : (st.setLast p i).getLast q = st.getLast q := by
  simp only [St.setLast, St.getLast, lookupLast, List.find?]
  have hb : (p == q) = false := by
    simp only [beq_eq_false_iff_ne, ne_eq]
    exact fun e => h e.symm
  simp [hb]

/-- Logging a call leaves `lastInstance` slots unchanged. -/
theorem getLast_logCall (st : St) (c : CallRec) (p : List String) :
    (st.logCall c).getLast p = st.getLast p := rfl

/-- Pushing an orphan entry leaves `lastInstance` slots unchanged. -/
theorem getLast_pushCleanup (st : St) (q : List String) (j : String)
    (p : List String) : (st.pushCleanup q j).getLast p = st.getLast p := rfl

/-- Clearing a slot makes it empty. -/
theorem getLast_clearLast_self (st : St) (p : List String) :
    (st.clearLast p).getLast p = none := by
  simp only [St.clearLast, St.getLast, lookupLast]
  have : ∀ l : List (List String × Inst),
      (l.filter (fun e => !(e.1 == p))).find? (fun e => e.1 == p) = none := by
    intro l
    induction l with
    | nil => rfl
    | cons a t ih =>
      by_cases h : (a.1 == p) = true
      · simp [List.filter, h, ih]
      · simp only [Bool.not_eq_true] at h
        simp [List.filter, List.find?, h, ih]
  rw [this st.last]
  rfl

/-- The call log after logging a call. -/
theorem calls_logCall (st : St) (c : CallRec) :
    (st.logCall c).calls = st.calls ++ [c] := rfl

/-- Setting a slot leaves the call log unchanged. -/
theorem calls_setLast (st : St) (p : List String) (i : Inst) :
    (st.setLast p i).calls = st.calls := rfl

/-- Create-call counting distributes over log append. -/
theorem countCreate_append (p : List String) (cs ds : List CallRec) :
    countCreate p (cs ++ ds) = countCreate p cs + countCreate p ds := by
  simp [countCreate, List.filter_append]

/-- A create call for a different definition does not count. -/
theorem countCreate_create_ne (p q : List String) (h : q ≠ p) :
    countCreate p [CallRec.create q] = 0 := by
  simp [countCreate, h]

/-- A delete call never counts as a create call. -/
theorem countCreate_delete (p path : List String) (i : String) :
    countCreate p [CallRec.delete path i] = 0 := by
  simp [countCreate]

/-! ### Preservation of cached instances across creation -/

/-- `st2` preserves `st`: every live `lastInstance` slot of `st` is intact
in `st2`, and no create call for its definition was added in between. -/
def preserves (st st2 : St) : Prop :=
  ∀ p i, st.getLast p = some i →
    st2.getLast p = some i ∧ countCreate p st2.calls = countCreate p st.calls

/-- Preservation is reflexive. -/
theorem preserves_refl (st : St) : preserves st st :=
  fun _ _ h => ⟨h, rfl⟩

/-- Preservation composes. -/
theorem preserves_trans {a b c : St} (h1 : preserves a b)
    (h2 : preserves b c) : preserves a c := by
  intro p i h
  obtain ⟨x1, y1⟩ := h1 p i h
  obtain ⟨x2, y2⟩ := h2 p i x1
  exact ⟨x2, y2.trans y1⟩

/-- Logging a create call for a definition with no live instance preserves
every live slot. -/
theorem preserves_log_create (st : St) (q : List String)
    (hq : st.getLast q = none) : preserves st (st.logCall (.create q)) := by
  intro p i hp
  have hpq : q ≠ p := by
    intro e; rw [e, hp] at hq; cases hq
  refine ⟨hp, ?_⟩
  rw [calls_logCall, countCreate_append, countCreate_create_ne p q hpq]
  omega

/-- Setting the slot of a definition with no live instance preserves every
live slot. -/
theorem preserves_setLast (st : St) (q : List String) (j : Inst)
    (hq : st.getLast q = none) : preserves st (st.setLast q j) := by
  intro p i hp
  have hpq : p ≠ q := by
    intro e; rw [e, hq] at hp; cases hp
  rw [getLast_setLast_ne st q p j hpq, calls_setLast]
  exact ⟨hp, rfl⟩

/-- The creation tail preserves every live slot: it either returns the
cached instance untouched, or creates and caches only a definition whose
slot was empty. -/
theorem finish_create_preserves (env : Env) (d : DefRef) (obj : Obj)
    (st : St) (r : Option CResult) (st2 : St)
    (h : finish_create env d obj st = .ok (r, st2)) : preserves st st2 := by
  unfold finish_create at h
  cases hl : st.getLast d.path with
  | some i =>
    rw [hl] at h
    cases h
    exact preserves_refl st
  | none =>
    rw [hl] at h
    cases ha : get_api_for_def env st.last d.path with
    | error e => rw [ha] at h; cases h
    | ok steps =>
      rw [ha] at h
      simp only at h
      cases hr : env.create_resp steps obj with
      | none =>
        rw [hr] at h
        cases h
        exact preserves_log_create st d.path hl
      | some rr =>
        rw [hr] at h
        simp only at h
        cases hres : rr.resource with
        | none => rw [hres] at h; cases h
        | some res =>
          rw [hres] at h
          cases h
          refine preserves_trans (preserves_log_create st d.path hl) ?_
          exact preserves_setLast _ d.path ⟨res.id, rr⟩ hl

/-- The dependency loop preserves every live slot, provided the supplied
creation function does. -/
theorem run_deps_preserves (cr : DefRef → St → Except Err (Option CResult × St))
    (all : List RNode)
    (hcr : ∀ d st r st2, cr d st = .ok (r, st2) → preserves st st2) :
    ∀ deps o st o2 st2, run_deps cr all deps o st = .ok (o2, st2) →
      preserves st st2 := by
  intro deps
  induction deps with
  | nil =>
    intro o st o2 st2 h
    cases h
    exact preserves_refl st
  | cons dep rest ih =>
    intro o st o2 st2 h
    unfold run_deps at h
    cases hf : find_resource_def all dep.from_ with
    | none => rw [hf] at h; cases h
    | some np =>
      rw [hf] at h
      obtain ⟨n, p⟩ := np
      simp only at h
      cases hc : cr ⟨n, p⟩ st with
      | error e => rw [hc] at h; cases h
      | ok rs =>
        rw [hc] at h
        obtain ⟨resp, st1⟩ := rs
        simp only at h
        cases resp with
        | none => cases h
        | some rr =>
          simp only at h
          cases hres : rr.resource with
          | none => rw [hres] at h; cases h
          | some res =>
            rw [hres] at h
            exact preserves_trans (hcr _ _ _ _ hc) (ih _ _ _ _ h)

/-- `create_resource_from_def` preserves every live slot: an already-cached
definition is never re-created and never receives another remote create
call, at any recursion depth. -/
theorem create_preserves (env : Env) : ∀ fuel d st r st2,
    create_resource_from_def env fuel d st = .ok (r, st2) →
      preserves st st2 := by
  intro fuel
  induction fuel with
  | zero => intro d st r st2 h; cases h
  | succ n ih =>
    intro d st r st2 h
    unfold create_resource_from_def at h
    cases hm : make_test_object env (parentInfo st d.path) d.node.fields with
    | error e => rw [hm] at h; cases h
    | ok mk =>
      rw [hm] at h
      simp only at h
      cases hr : run_deps (create_resource_from_def env n) env.alldefs mk.deps mk.inst st with
      | error e => rw [hr] at h; cases h
      | ok os =>
        rw [hr] at h
        obtain ⟨obj, st1⟩ := os
        have p1 := run_deps_preserves (create_resource_from_def env n) env.alldefs
          (fun d' st' r' st2' hh => ih d' st' r' st2' hh) mk.deps mk.inst st obj st1 hr
        exact preserves_trans p1 (finish_create_preserves env d obj st1 r st2 h)

/-- If, after the creation tail, the definition has a cached instance, the
returned value is exactly that cached result. -/
theorem finish_create_cached_result (env : Env) (d : DefRef) (obj : Obj)
    (st : St) (r : Option CResult) (st2 : St) (i : Inst)
    (h : finish_create env d obj st = .ok (r, st2))
    (hc : st2.getLast d.path = some i) : r = some i.obj := by
  unfold finish_create at h
  cases hl : st.getLast d.path with
  | some j =>
    rw [hl] at h
    cases h
    rw [hl] at hc
    cases hc
    rfl
  | none =>
    rw [hl] at h
    cases ha : get_api_for_def env st.last d.path with
    | error e => rw [ha] at h; cases h
    | ok steps =>
      rw [ha] at h
      simp only at h
      cases hr : env.create_resp steps obj with
      | none =>
        rw [hr] at h
        cases h
        rw [getLast_logCall, hl] at hc
        cases hc
      | some rr =>
        rw [hr] at h
        simp only at h
        cases hres : rr.resource with
        | none => rw [hres] at h; cases h
        | some res =>
          rw [hres] at h
          cases h
          rw [getLast_setLast_self] at hc
          cases hc
          rfl

/-- If a creation call returns successfully and the definition has a cached
instance afterwards, the returned value is exactly that cached result. -/
theorem create_cached_result (env : Env) (fuel : Nat) (d : DefRef) (st : St)
    (r : Option CResult) (st2 : St) (i : Inst)
    (h : create_resource_from_def env fuel d st = .ok (r, st2))
    (hc : st2.getLast d.path = some i) : r = some i.obj := by
  cases fuel with
  | zero => cases h
  | succ n =>
    unfold create_resource_from_def at h
    cases hm : make_test_object env (parentInfo st d.path) d.node.fields with
    | error e => rw [hm] at h; cases h
    | ok mk =>
      rw [hm] at h
      simp only at h
      cases hr : run_deps (create_resource_from_def env n) env.alldefs mk.deps mk.inst st with
      | error e => rw [hr] at h; cases h
      | ok os =>
        rw [hr] at h
        obtain ⟨obj, st1⟩ := os
        exact finish_create_cached_result env d obj st1 r st2 i h hc

/-! ### Concrete fixtures for counterexamples and witnesses -/

/-- A baseline deterministic environment for concrete runs. -/
def baseEnv : Env where
  alldefs := []
  singular := fun s => s
  now := "2016-01-01T00:00:00+00:00"
  uuidv := "00000000-0000-4000-8000-000000000000"
  randBelow := fun _ => 0
  randNum := 7
  draw := 1
  randString := fun _ => "str"
  create_resp := fun _ _ => none
  delete_resp := fun _ _ => 204

/-- Demo root definition `b`: no fields. -/
def demoB : RNode := .mk "b" [] []

/-- Demo root definition `a`: one field whose value must come from an
instance of definition `b`. -/
def demoA : RNode :=
  .mk "a" [⟨"b_id", "string", none, false, some "b", [], false⟩] []

/-- The created-instance record already cached for `a`. -/
def demoInstA : Inst := ⟨"ida", ⟨some ⟨"ida", none⟩⟩⟩

/-- The remote create result used for `b`. -/
def demoResB : CResult := ⟨some ⟨"idb", none⟩⟩

/-- Environment for the memoization experiments: definitions `a` and `b`,
remote create always answering with `demoResB`. -/
def c1env : Env :=
  { baseEnv with alldefs := [demoA, demoB], create_resp := fun _ _ => some demoResB }

/-- Starting state for the C1 run: `a` cached, `b` not. -/
def c1st : St := ⟨[(["a"], demoInstA)], [], []⟩

/-- Resulting state of the C1 run: `b` was created remotely even though
`a` was cached. -/
def c1stOut : St := ⟨[(["b"], ⟨"idb", demoResB⟩), (["a"], demoInstA)], [], [.create ["b"]]⟩

/-- C1 counterexample: with `a.lastInstance` already set but its dependency
`b` uncached, `create_resource_from_def a` does NOT return immediately: it
looks up `b`, recursively creates it, and issues a remote create call for
`b` before returning the cached instance of `a` — refuting the claim that
no dependency lookup, recursive creation or remote call occurs. -/
theorem C1_counterexample :
    c1st.getLast ["a"] = some demoInstA ∧
    create_resource_from_def c1env 3 ⟨demoA, ["a"]⟩ c1st =
      .ok (some demoInstA.obj, c1stOut) ∧
    c1stOut.calls = [CallRec.create ["b"]] := by
  refine ⟨rfl, ?_, rfl⟩
  rfl

/-- C1 (amended): when `lastInstance` is already set, the call still
synthesizes a candidate object and resolves every dependency reference
first (possibly creating dependencies remotely); only afterwards does it
return the cached result, and it never issues a create call for the
definition itself, whose cached instance survives unchanged. -/
theorem C1_amended (env : Env) (fuel : Nat) (d : DefRef) (st : St) (i : Inst)
    (r : Option CResult) (st2 : St)
    (hc : st.getLast d.path = some i)
    (h : create_resource_from_def env fuel d st = .ok (r, st2)) :
    r = some i.obj ∧ st2.getLast d.path = some i ∧
    countCreate d.path st2.calls = countCreate d.path st.calls := by
  obtain ⟨h1, h2⟩ := create_preserves env fuel d st r st2 h d.path i hc
  exact ⟨create_cached_result env fuel d st r st2 i h h1, h1, h2⟩

/-- C1 witness: the amended statement evaluated on the concrete C1 run. -/
theorem C1_witness :
    (some demoInstA.obj : Option CResult) = some demoInstA.obj ∧
    c1stOut.getLast ["a"] = some demoInstA ∧
    countCreate ["a"] c1stOut.calls = countCreate ["a"] c1st.calls :=
  C1_amended c1env 3 ⟨demoA, ["a"]⟩ c1st demoInstA (some demoInstA.obj)
    c1stOut (by rfl) (by rfl)

/-- C2: two calls to `create_resource_from_def` on the same definition in
one run, with no intervening delete, both return exactly the cached
instance, the cache entry (hence the instance id) is unchanged, and the
second call issues no remote create call for that definition. -/
theorem C2_theorem (env : Env) (f1 f2 : Nat) (d : DefRef) (st0 : St)
    (r1 : Option CResult) (st1 : St) (i : Inst) (r2 : Option CResult)
    (st2 : St)
    (h1 : create_resource_from_def env f1 d st0 = .ok (r1, st1))
    (hc : st1.getLast d.path = some i)
    (h2 : create_resource_from_def env f2 d st1 = .ok (r2, st2)) :
    r1 = some i.obj ∧ r2 = some i.obj ∧ st2.getLast d.path = some i ∧
    countCreate d.path st2.calls = countCreate d.path st1.calls := by
  have e1 := create_cached_result env f1 d st0 r1 st1 i h1 hc
  obtain ⟨g1, g2⟩ := create_preserves env f2 d st1 r2 st2 h2 d.path i hc
  exact ⟨e1, create_cached_result env f2 d st1 r2 st2 i h2 g1, g1, g2⟩

/-- State after the first successful creation of `a` (which first created
its dependency `b`). -/
def c2st1 : St :=
  ⟨[(["a"], ⟨"idb", demoResB⟩), (["b"], ⟨"idb", demoResB⟩)], [],
    [.create ["b"], .create ["a"]]⟩

/-- C2 witness: first call from the empty state creates `b` then `a`; the
second call returns the cached instance of `a` with no further create
calls. -/
theorem C2_witness :
    (some demoResB : Option CResult) = some (Inst.mk "idb" demoResB).obj ∧
    (some demoResB : Option CResult) = some (Inst.mk "idb" demoResB).obj ∧
    c2st1.getLast ["a"] = some ⟨"idb", demoResB⟩ ∧
    countCreate ["a"] c2st1.calls = countCreate ["a"] c2st1.calls :=
  C2_theorem c1env 3 3 ⟨demoA, ["a"]⟩ ⟨[], [], []⟩ (some demoResB) c2st1
    ⟨"idb", demoResB⟩ (some demoResB) c2st1 (by rfl) (by rfl) (by rfl)

/-- Demo root definition `e`: no fields. -/
def demoE : RNode := .mk "e" [] []

/-- A remote create result whose payload carries an error message. -/
def errRes : CResult := ⟨some ⟨"ide", some "boom"⟩⟩

/-- Environment for the error-payload experiment: the remote create call
answers with an error message in the resource body. -/
def c3env : Env :=
  { baseEnv with alldefs := [demoE], create_resp := fun _ _ => some errRes }

/-- C3 counterexample: the remote create result carries an error message,
yet `create_resource_from_def` caches `lastInstance` for the definition —
refuting the claim that no `lastInstance` is cached on an error payload. -/
theorem C3_counterexample :
    errRes.resource.map (fun r => r.message) = some (some "boom") ∧
    create_resource_from_def c3env 1 ⟨demoE, ["e"]⟩ ⟨[], [], []⟩ =
      .ok (some errRes, ⟨[(["e"], ⟨"ide", errRes⟩)], [], [.create ["e"]]⟩) ∧
    (⟨[(["e"], ⟨"ide", errRes⟩)], [], [.create ["e"]]⟩ : St).getLast ["e"] =
      some ⟨"ide", errRes⟩ := by
  exact ⟨rfl, by rfl, rfl⟩

/-- C3 (amended): on a create response whose payload carries an error
message, the creation tail still caches `{ id, obj }` as `lastInstance`
(no error check is performed) and returns the errored result to the
caller; a subsequent call will therefore reuse the cached errored
instance instead of retrying from scratch. -/
theorem C3_amended (env : Env) (d : DefRef) (obj : Obj) (st : St)
    (steps : List ApiStep) (r : CResult) (res : Res) (m : String)
    (hnone : st.getLast d.path = none)
    (hapi : get_api_for_def env st.last d.path = .ok steps)
    (hresp : env.create_resp steps obj = some r)
    (hres : r.resource = some res)
    (hmsg : res.message = some m) :
    finish_create env d obj st =
      .ok (some r, (st.logCall (.create d.path)).setLast d.path ⟨res.id, r⟩) := by
  unfold finish_create
  rw [hnone, hapi]
  simp only
  rw [hresp]
  simp only
  rw [hres]

/-- C3 witness: the amended statement evaluated on the concrete error-
payload run. -/
theorem C3_witness :
    finish_create c3env ⟨demoE, ["e"]⟩ [] ⟨[], [], []⟩ =
      .ok (some errRes,
        ((⟨[], [], []⟩ : St).logCall (.create ["e"])).setLast ["e"] ⟨"ide", errRes⟩) :=
  C3_amended c3env ⟨demoE, ["e"]⟩ [] ⟨[], [], []⟩ [⟨"e", []⟩] errRes
    ⟨"ide", some "boom"⟩ "boom" (by rfl) (by rfl) (by rfl) (by rfl) (by rfl)

/-- Demo tree for path lookup: root `a` with a single child `b`. -/
def c4A : RNode := .mk "a" [] [.mk "b" [] []]

/-- C4 counterexample: in the path `a/zzz` the segment `zzz` matches no
child of `a`, yet `find_resource_def` returns the partial
prefix match `a` instead of reporting not-found — refuting the claim that
any non-matching segment makes the lookup fail. -/
theorem C4_counterexample :
    (child_find c4A.children "zzz").isNone = true ∧
    (find_resource_def [c4A] "a/zzz").map (fun x => x.2) = some ["a"] := by
  exact ⟨rfl, rfl⟩

/-- C4 (amended): the segment loop of `find_resource_def` never fails on a
non-matching segment — it skips it, keeping the same candidate sibling
list and the definition selected by the last matching segment, and a
matching segment selects that sibling and descends into its children.
Not-found is therefore reported only when no segment ever matches. -/
theorem C4_amended (seg : String) (rest : List String) (defs : List RNode)
    (pfx : List String) (cur : Option (RNode × List String)) :
    (child_find defs seg = none →
      frd_loop (seg :: rest) defs pfx cur = frd_loop rest defs pfx cur) ∧
    (∀ d, child_find defs seg = some d →
      frd_loop (seg :: rest) defs pfx cur =
        frd_loop rest d.children (pfx ++ [seg]) (some (d, pfx ++ [seg]))) := by
  constructor
  · intro h
    conv_lhs => rw [frd_loop]
    rw [h]
  · intro d h
    conv_lhs => rw [frd_loop]
    rw [h]

/-- C4 witness: the amended characterization evaluated on the concrete
`a/zzz` lookup (one skipping step, one descending step). -/
theorem C4_witness :
    frd_loop ["zzz"] (RNode.children c4A) ["a"] (some (c4A, ["a"])) =
      frd_loop [] (RNode.children c4A) ["a"] (some (c4A, ["a"])) ∧
    frd_loop ["a", "zzz"] [c4A] [] none =
      frd_loop ["zzz"] (RNode.children c4A) ([] ++ ["a"]) (some (c4A, [] ++ ["a"])) :=
  ⟨(C4_amended "zzz" [] (RNode.children c4A) ["a"] (some (c4A, ["a"]))).1 (by rfl),
   (C4_amended "a" ["zzz"] [c4A] [] none).2 c4A (by rfl)⟩

/-- Four nested definitions `aa/bb/cc/dd` for the API-binding experiment. -/
def c5DD : RNode := .mk "dd" [] []

/-- Level three of the chain. -/
def c5CC : RNode := .mk "cc" [] [c5DD]

/-- Level two of the chain. -/
def c5BB : RNode := .mk "bb" [] [c5CC]

/-- Root of the chain. -/
def c5AA : RNode := .mk "aa" [] [c5BB]

/-- A live instance record with a given id. -/
def mkInst (s : String) : Inst := ⟨s, ⟨some ⟨s, none⟩⟩⟩

/-- Live instances for `aa`, `bb` and `cc`, each with its own id. -/
def c5last : List (List String × Inst) :=
  [(["aa"], mkInst "ida"), (["aa", "bb"], mkInst "idb"),
   (["aa", "bb", "cc"], mkInst "idc")]

/-- Environment with a visible singularization rule. -/
def c5env : Env := { baseEnv with alldefs := [c5AA], singular := fun s => s ++ "0" }

/-- C5 counterexample: binding the depth-4 definition `aa/bb/cc/dd`, the
segment for the intermediate owner `aa` is invoked with `cc`'s instance id
(`dd`'s immediate parent id) instead of `aa`'s own id `ida` — refuting the
claim that each level is scoped by that level's own `lastInstance.id`. -/
theorem C5_counterexample :
    (lookupLast c5last ["aa"]).map (fun i => i.id) = some "ida" ∧
    get_api_for_def c5env c5last ["aa", "bb", "cc", "dd"] =
      .ok [⟨"aa0", ["idc"]⟩, ⟨"bb", []⟩, ⟨"cc0", ["idc"]⟩, ⟨"dd", []⟩] ∧
    (["idc"] : List String) ≠ ["ida"] := by
  refine ⟨rfl, by rfl, by decide⟩

/-- The invocation chain `get_api_for_def` actually builds: a segment at
even remaining length is invoked through its singular name with the one
fixed parent id, an odd segment through its plain name with no
arguments. -/
def steps_from (sing : String → String) (pid : String) : List String → List ApiStep
  | [] => []
  | n :: rest =>
    (if (rest.length + 1) % 2 == 0 then ApiStep.mk (sing n) [pid]
     else ApiStep.mk n []) :: steps_from sing pid rest

/-- With a parent id available, the step builder never fails and produces
exactly the `steps_from` chain. -/
theorem api_steps_some (sing : String → String) (pid : String) :
    ∀ l : List String, api_steps sing (some pid) l = .ok (steps_from sing pid l) := by
  intro l
  induction l with
  | nil => rfl
  | cons n rest ih =>
    unfold api_steps steps_from
    rw [ih]
    rcases Bool.eq_false_or_eq_true ((rest.length + 1) % 2 == 0) with h | h <;> simp [h]

/-- Every step passes either no argument or the single fixed parent id. -/
theorem steps_from_args (sing : String → String) (pid : String) :
    ∀ l, ∀ s ∈ steps_from sing pid l, s.args = [] ∨ s.args = [pid] := by
  intro l
  induction l with
  | nil => intro s hs; cases hs
  | cons n rest ih =>
    intro s hs
    unfold steps_from at hs
    rcases List.mem_cons.mp hs with h | h
    · subst h
      rcases Bool.eq_false_or_eq_true ((rest.length + 1) % 2 == 0) with hb | hb <;>
        simp [hb]
    · exact ih s h

/-- C5 (amended): for a definition with a live immediate parent,
`get_api_for_def` builds the full chain, and every even segment is passed
the immediate parent's `lastInstance.id` of the definition being bound —
one fixed id at every level — while the other segments take no
arguments. -/
theorem C5_amended (env : Env) (lastm : List (List String × Inst))
    (path pp : List String) (pi : Inst)
    (hpp : path.dropLast = pp) (hne : pp ≠ [])
    (hlast : lookupLast lastm pp = some pi) :
    get_api_for_def env lastm path = .ok (steps_from env.singular pi.id path) ∧
    ∀ s ∈ steps_from env.singular pi.id path, s.args = [] ∨ s.args = [pi.id] := by
  have key : get_api_for_def env lastm path = api_steps env.singular (some pi.id) path := by
    unfold get_api_for_def
    rw [hpp]
    cases pp with
    | nil => exact absurd rfl hne
    | cons x xs =>
      simp only
      rw [hlast]
      rfl
  refine ⟨?_, steps_from_args env.singular pi.id path⟩
  rw [key, api_steps_some]

/-- C5 witness: the amended statement evaluated on the concrete depth-4
chain. -/
theorem C5_witness :
    get_api_for_def c5env c5last ["aa", "bb", "cc", "dd"] =
      .ok (steps_from c5env.singular (mkInst "idc").id ["aa", "bb", "cc", "dd"]) ∧
    ∀ s ∈ steps_from c5env.singular (mkInst "idc").id ["aa", "bb", "cc", "dd"],
      s.args = [] ∨ s.args = [(mkInst "idc").id] :=
  C5_amended c5env c5last ["aa", "bb", "cc", "dd"] ["aa", "bb", "cc"]
    (mkInst "idc") (by rfl) (by decide) (by rfl)

/-- Field of the C6 demo definition `d`: references root definition `g`. -/
def c6fieldD : FieldDef := ⟨"g_id", "string", none, false, some "g", [], false⟩

/-- Demo grandchild `d` (path `g/p/d`) referencing its grandparent `g`. -/
def c6D : RNode := .mk "d" [c6fieldD] []

/-- Demo middle definition `p`. -/
def c6P : RNode := .mk "p" [] [c6D]

/-- Demo root definition `g`. -/
def c6G : RNode := .mk "g" [] [c6P]

/-- Environment for the ancestor-deferral experiment (deletes succeed). -/
def c6env : Env := { baseEnv with alldefs := [c6G] }

/-- State for the C6 run: both `d` and its referenced grandparent `g`
live. -/
def c6st : St := ⟨[(["g", "p", "d"], mkInst "idd"), (["g"], mkInst "idg")], [], []⟩

/-- C6 counterexample: `g` is an ancestor (the grandparent) of the deleting
definition `d = g/p/d` and is referenced by `d`'s field, so by the claim
cleanup should defer `g` to the orphan queue and keep its `lastInstance`;
the code instead consults only the immediate parent's name `p`, finds no
substring match for `g`, deletes `g` remotely, records no orphan entry and
clears the slot. -/
theorem C6_counterexample :
    ((["g", "p", "d"].dropLast).contains "g") = true ∧
    c6fieldD.dont_delete = false ∧
    ((delete_dependent_resources c6env 3 ⟨c6D, ["g", "p", "d"]⟩ c6st).toOption.map
      (fun s => (s.cleanups, s.getLast ["g"], s.calls))) =
      some ([], none, [CallRec.delete ["g"] "idg"]) := by
  exact ⟨rfl, rfl, by rfl⟩

/-- C6 (amended): during cleanup, a field with a non-parent `from` whose
referenced definition is live is deferred onto the orphan queue — with the
referenced `lastInstance` left untouched — exactly when its `dont_delete`
flag is set or the deleting definition's *immediate* parent exists and its
name contains the `from` string as a substring; ancestors beyond the
immediate parent are never consulted, and the test is substring
containment, not name equality. -/
theorem C6_amended (env : Env) (recur : DefRef → St → Except Err St)
    (d : DefRef) (f : FieldDef) (st : St) (frm : String) (tn : RNode)
    (tp : List String) (inst : Inst)
    (hfrom : f.from_ = some frm) (hne : (frm == parent_ref) = false)
    (hfind : find_resource_def env.alldefs frm = some (tn, tp))
    (hlast : st.getLast tp = some inst)
    (hdefer : f.dont_delete = true ∨
      ∃ pn, parentName d.path = some pn ∧ contains_sub pn frm = true) :
    process_field env recur d f st = .ok (st.pushCleanup tp inst.id) ∧
    (st.pushCleanup tp inst.id).getLast tp = some inst := by
  have hkeep : (!f.dont_delete &&
      (match parentName d.path with
       | none => true
       | some pn => !(contains_sub pn frm))) = false := by
    rcases hdefer with h | ⟨pn, hpn, hcont⟩
    · rw [h]; rfl
    · rw [hpn]
      simp [hcont]
  refine ⟨?_, hlast⟩
  unfold process_field
  rw [hfrom]
  simp only
  rw [if_neg (by simp [hne])]
  rw [hfind]
  simp only
  rw [hlast]
  simp only
  rw [if_neg (by simp [hkeep])]

/-- Field of the deferral witness: `dont_delete` is set. -/
def c6fieldW : FieldDef := ⟨"v_id", "string", none, false, some "v", [], true⟩

/-- Referenced root definition `v` of the deferral witness. -/
def c6V : RNode := .mk "v" [] []

/-- Deleting root definition `w` of the deferral witness. -/
def c6W : RNode := .mk "w" [c6fieldW] []

/-- Environment for the deferral witness. -/
def c6envW : Env := { baseEnv with alldefs := [c6V, c6W] }

/-- State for the deferral witness: `w` and `v` both live. -/
def c6stW : St := ⟨[(["w"], mkInst "idw"), (["v"], mkInst "idv")], [], []⟩

/-- C6 witness: the amended statement evaluated on a `dont_delete` field:
the referenced definition is pushed onto the orphan queue and stays
live. -/
theorem C6_witness :
    process_field c6envW (fun _ s => .ok s) ⟨c6W, ["w"]⟩ c6fieldW c6stW =
      .ok (c6stW.pushCleanup ["v"] (mkInst "idv").id) ∧
    (c6stW.pushCleanup ["v"] (mkInst "idv").id).getLast ["v"] =
      some (mkInst "idv") :=
  C6_amended c6envW (fun _ s => .ok s) ⟨c6W, ["w"]⟩ c6fieldW c6stW "v" c6V
    ["v"] (mkInst "idv") (by rfl) (by rfl) (by rfl) (by rfl) (Or.inl rfl)

/-- C7: when a dependency's remote delete returns a non-204 status, the
cleanup step returns successfully (no error is raised), pushes the
dependency's `{definition, id}` entry onto the orphan queue, clears its
`lastInstance` anyway, and a later `cleanup_orphans` on a queue holding
exactly that entry issues exactly one further delete call for that id. -/
theorem C7_theorem (env : Env) (recur : DefRef → St → Except Err St)
    (d : DefRef) (f : FieldDef) (st : St) (frm : String) (tn : RNode)
    (tp : List String) (inst : Inst) (st1 : St) (inst1 : Inst)
    (steps : List ApiStep)
    (hfrom : f.from_ = some frm) (hne : (frm == parent_ref) = false)
    (hfind : find_resource_def env.alldefs frm = some (tn, tp))
    (hlast : st.getLast tp = some inst)
    (hdd : f.dont_delete = false)
    (hpar : ∀ pn, parentName d.path = some pn → contains_sub pn frm = false)
    (hrec : recur ⟨tn, tp⟩ st = .ok st1)
    (hlast1 : st1.getLast tp = some inst1)
    (hapi : get_api_for_def env st1.last tp = .ok steps)
    (hfail : env.delete_resp steps inst1.id ≠ 204) :
    process_field env recur d f st =
      .ok (((st1.logCall (.delete tp inst1.id)).pushCleanup tp inst1.id).clearLast tp) ∧
    (((st1.logCall (.delete tp inst1.id)).pushCleanup tp inst1.id).clearLast tp).cleanups
      = st1.cleanups ++ [(tp, inst1.id)] ∧
    (((st1.logCall (.delete tp inst1.id)).pushCleanup tp inst1.id).clearLast tp).getLast tp
      = none ∧
    (∀ st2 steps2, st2.cleanups = [(tp, inst1.id)] →
      get_api_for_def env st2.last tp = .ok steps2 →
      cleanup_orphans env st2 =
        .ok { st2 with cleanups := [],
                       calls := st2.calls ++ [.delete tp inst1.id] }) := by
  have hkeep : (!f.dont_delete &&
      (match parentName d.path with
       | none => true
       | some pn => !(contains_sub pn frm))) = true := by
    rw [hdd]
    cases hp : parentName d.path with
    | none => rfl
    | some pn => simp [hpar pn hp]
  refine ⟨?_, rfl, getLast_clearLast_self _ tp, ?_⟩
  · unfold process_field
    rw [hfrom]
    simp only
    rw [if_neg (by simp [hne])]
    rw [hfind]
    simp only
    rw [hlast]
    simp only
    rw [if_pos (by simp [hkeep])]
    rw [hrec]
    simp only
    rw [hapi]
    simp only
    rw [hlast1]
    simp only
    rw [if_pos (by simp [bne_iff_ne, hfail])]
  · intro st2 steps2 hq hapi2
    unfold cleanup_orphans
    rw [hq]
    unfold drain_go
    rw [if_neg (by simp)]
    dsimp only
    rw [hapi2]
    rfl

/-- Field of the failed-delete witness: references root definition `vv`. -/
def c7f : FieldDef := ⟨"vv_id", "string", none, false, some "vv", [], false⟩

/-- Referenced root definition `vv` of the failed-delete witness. -/
def c7B : RNode := .mk "vv" [] []

/-- Deleting root definition `ww` of the failed-delete witness. -/
def c7W : RNode := .mk "ww" [c7f] []

/-- Environment whose remote delete always fails with status 500. -/
def c7env : Env :=
  { baseEnv with alldefs := [c7B, c7W], delete_resp := fun _ _ => 500 }

/-- State for the failed-delete witness: `ww` and `vv` both live. -/
def c7st : St := ⟨[(["ww"], mkInst "idw"), (["vv"], mkInst "idv")], [], []⟩

/-- The state after the failed delete of `vv`: call logged, orphan entry
pushed, slot cleared. -/
def c7stout : St :=
  ((c7st.logCall (.delete ["vv"] (mkInst "idv").id)).pushCleanup
    ["vv"] (mkInst "idv").id).clearLast ["vv"]

/-- C7 witness: the statement evaluated on the concrete failed-delete
scenario, including the subsequent drain issuing exactly one delete for
`vv`'s id. -/
theorem C7_witness :
    process_field c7env (delete_dependent_resources c7env 1) ⟨c7W, ["ww"]⟩
      c7f c7st = .ok c7stout ∧
    c7stout.cleanups = c7st.cleanups ++ [(["vv"], (mkInst "idv").id)] ∧
    c7stout.getLast ["vv"] = none ∧
    cleanup_orphans c7env c7stout =
      .ok { c7stout with cleanups := [],
                         calls := c7stout.calls ++ [.delete ["vv"] (mkInst "idv").id] } := by
  have h := C7_theorem c7env (delete_dependent_resources c7env 1) ⟨c7W, ["ww"]⟩
    c7f c7st "vv" c7B ["vv"] (mkInst "idv") c7st (mkInst "idv") [⟨"vv", []⟩]
    rfl rfl (by rfl) rfl rfl
    (by intro pn hp; simp [parentName] at hp)
    (by rfl) rfl (by rfl) (by decide)
  exact ⟨h.1, h.2.1, h.2.2.1, h.2.2.2 c7stout [⟨"vv", []⟩] (by rfl) (by rfl)⟩

/-- Delete-call counting distributes over log append. -/
theorem countDeleteId_append (i : String) (cs ds : List CallRec) :
    countDeleteId i (cs ++ ds) = countDeleteId i cs + countDeleteId i ds := by
  simp [countDeleteId, List.filter_append]

/-- Counting delete calls over a mapped orphan list counts matching ids. -/
theorem countDeleteId_map_delete (i : String) :
    ∀ l : List (List String × String),
      countDeleteId i (l.map (fun e => CallRec.delete e.1 e.2)) =
        (l.filter (fun e => e.2 == i)).length := by
  intro l
  induction l with
  | nil => rfl
  | cons e rest ih =>
    unfold countDeleteId at ih ⊢
    simp only [List.map_cons, List.filter_cons, isDeleteFor]
    by_cases h : (e.2 == i) = true
    · simp [h, ih]
    · simp only [Bool.not_eq_true] at h
      simp [h, ih]

/-- The drain pass appends exactly the deletes of the id-deduplicated
queue, in queue order, and does not touch the queue it was given. -/
theorem drain_go_spec (env : Env) :
    ∀ q deleted st st2, drain_go env q deleted st = .ok st2 →
      st2.calls = st.calls ++
        (dedup_by_id q deleted).map (fun e => CallRec.delete e.1 e.2) ∧
      st2.cleanups = st.cleanups := by
  intro q
  induction q with
  | nil =>
    intro deleted st st2 h
    cases h
    simp [dedup_by_id]
  | cons e rest ih =>
    intro deleted st st2 h
    unfold drain_go at h
    by_cases hc : deleted.contains e.2 = true
    · rw [if_pos hc] at h
      obtain ⟨h1, h2⟩ := ih deleted st st2 h
      refine ⟨?_, h2⟩
      rw [h1]
      have hd : dedup_by_id (e :: rest) deleted = dedup_by_id rest deleted := by
        rw [dedup_by_id, if_pos hc]
      rw [hd]
    · rw [if_neg hc] at h
      cases ha : get_api_for_def env st.last e.1 with
      | error er => rw [ha] at h; cases h
      | ok steps =>
        rw [ha] at h
        obtain ⟨h1, h2⟩ := ih (e.2 :: deleted) (st.logCall (.delete e.1 e.2)) st2 h
        have hd : dedup_by_id (e :: rest) deleted =
            e :: dedup_by_id rest (e.2 :: deleted) := by
          rw [dedup_by_id, if_neg hc]
        constructor
        · rw [h1, calls_logCall, hd, List.map_cons, List.append_assoc,
            List.singleton_append]
        · exact h2

/-- Exactly one entry per id survives first-occurrence deduplication: an id
already processed contributes nothing, an id present in the queue
contributes exactly one entry, an absent id none. -/
theorem dedup_by_id_count (i : String) :
    ∀ (q : List (List String × String)) (seen : List String),
      ((dedup_by_id q seen).filter (fun e => e.2 == i)).length =
        if seen.contains i = true then 0
        else if q.any (fun e => e.2 == i) = true then 1 else 0 := by
  intro q
  induction q with
  | nil =>
    intro seen
    by_cases h : seen.contains i = true
    · rw [if_pos h]; rfl
    · rw [if_neg h, if_neg (by simp)]; rfl
  | cons e rest ih =>
    intro seen
    have hany : ((e :: rest).any fun x => x.2 == i) =
        ((e.2 == i) || rest.any fun x => x.2 == i) := rfl
    rw [dedup_by_id]
    by_cases hs : seen.contains e.2 = true
    · rw [if_pos hs, ih seen]
      by_cases hsi : seen.contains i = true
      · rw [if_pos hsi, if_pos hsi]
      · have he : (e.2 == i) = false := by
          by_contra hx
          rw [Bool.not_eq_false, beq_iff_eq] at hx
          rw [hx] at hs
          exact hsi hs
        rw [if_neg hsi, if_neg hsi, hany, he, Bool.false_or]
    · rw [if_neg hs, List.filter_cons]
      by_cases he : (e.2 == i) = true
      · have hei : e.2 = i := by rwa [beq_iff_eq] at he
        have hin : (e.2 :: seen).contains i = true := by
          rw [List.contains_cons, hei, beq_self_eq_true, Bool.true_or]
        have hsi : ¬(seen.contains i = true) := by
          rw [← hei]; exact hs
        have hrhs : ((e :: rest).any fun x => x.2 == i) = true := by
          rw [hany, he, Bool.true_or]
        rw [if_pos he, List.length_cons, ih (e.2 :: seen), if_pos hin,
          if_neg hsi, if_pos hrhs]
      · have hef : (e.2 == i) = false :=
          beq_eq_false_iff_ne.mpr (fun h2 => he (beq_iff_eq.mpr h2))
        have hne2 : (i == e.2) = false :=
          beq_eq_false_iff_ne.mpr (fun h2 => he (beq_iff_eq.mpr h2.symm))
        have hcons : (e.2 :: seen).contains i = seen.contains i := by
          rw [List.contains_cons, hne2, Bool.false_or]
        rw [if_neg he, ih (e.2 :: seen), hcons]
        by_cases hsi : seen.contains i = true
        · rw [if_pos hsi, if_pos hsi]
        · rw [if_neg hsi, if_neg hsi, hany, hef, Bool.false_or]

/-- C8: a drain pass pops entries oldest-first with first-occurrence
deduplication by id, empties the queue, and issues exactly one delete call
for every id present in the queue — in particular an id pushed twice gets
one call; the remote status of those deletes is never consulted, so
failures are ignored. -/
theorem C8_theorem (env : Env) (st st2 : St)
    (q : List (List String × String))
    (hq : st.cleanups = q) (h : cleanup_orphans env st = .ok st2) :
    st2.calls = st.calls ++
      (dedup_by_id q []).map (fun e => CallRec.delete e.1 e.2) ∧
    st2.cleanups = [] ∧
    ∀ i, q.any (fun e => e.2 == i) = true →
      countDeleteId i st2.calls = countDeleteId i st.calls + 1 := by
  unfold cleanup_orphans at h
  rw [hq] at h
  obtain ⟨h1, h2⟩ := drain_go_spec env q [] { st with cleanups := [] } st2 h
  refine ⟨h1, h2, ?_⟩
  intro i hi
  rw [h1, countDeleteId_append, countDeleteId_map_delete, dedup_by_id_count]
  simp [hi]

/-- A queue holding the same id twice before a drain. -/
def c8st : St := ⟨[], [(["vv"], "x"), (["vv"], "x")], []⟩

/-- C8 witness: draining the duplicate queue issues exactly one delete call
for the duplicated id and empties the queue. -/
theorem C8_witness :
    (⟨[], [], [.delete ["vv"] "x"]⟩ : St).calls = c8st.calls ++
      (dedup_by_id [(["vv"], "x"), (["vv"], "x")] []).map
        (fun e => CallRec.delete e.1 e.2) ∧
    (⟨[], [], [.delete ["vv"] "x"]⟩ : St).cleanups = [] ∧
    countDeleteId "x" (⟨[], [], [.delete ["vv"] "x"]⟩ : St).calls =
      countDeleteId "x" c8st.calls + 1 := by
  have h := C8_theorem baseEnv c8st ⟨[], [], [.delete ["vv"] "x"]⟩
    [(["vv"], "x"), (["vv"], "x")] rfl (by rfl)
  exact ⟨h.1, h.2.1, h.2.2 "x" (by rfl)⟩

/-- C9 counterexample: a `timestamp` field (a recognized type) with no
`from` and no values is left entirely absent by `make_test_object`, not
assigned the current time. -/
theorem C9_counterexample :
    field_type_recognized "timestamp" = true ∧
    make_test_object baseEnv none [⟨"t", "timestamp", none, false, none, [], false⟩] =
      .ok ⟨[], []⟩ :=
  ⟨rfl, rfl⟩

/-- C9 (amended): a `date` field without `from`/`values` is assigned the
current time in the canonical format; a `timestamp` field, although also a
recognized type, has no synthesis case and is left entirely absent from
the synthesized object. -/
theorem C9_amended (env : Env) (parent : Option ParentInfo) (f : FieldDef)
    (hfrom : f.from_ = none) (hvals : f.values = []) :
    (f.type = "date" →
      field_action env parent f = .ok (.assign (.str env.now)) ∧
      make_test_object env parent [f] = .ok ⟨[(f.name, .str env.now)], []⟩) ∧
    (f.type = "timestamp" →
      field_action env parent f = .ok .skip ∧
      make_test_object env parent [f] = .ok ⟨[], []⟩) := by
  constructor
  · intro h
    have ha : field_action env parent f = .ok (.assign (.str env.now)) := by
      unfold field_action
      rw [hfrom, hvals, h]
      rfl
    refine ⟨ha, ?_⟩
    unfold make_test_object mto_go
    rw [ha]
    rfl
  · intro h
    have ha : field_action env parent f = .ok .skip := by
      unfold field_action
      rw [hfrom, hvals, h]
      rfl
    refine ⟨ha, ?_⟩
    unfold make_test_object mto_go
    rw [ha]
    rfl

/-- C9 witness: the amended statement evaluated on a concrete `date` field
and a concrete `timestamp` field. -/
theorem C9_witness :
    (field_action baseEnv none ⟨"d1", "date", none, false, none, [], false⟩ =
      .ok (.assign (.str baseEnv.now)) ∧
     make_test_object baseEnv none [⟨"d1", "date", none, false, none, [], false⟩] =
      .ok ⟨[("d1", .str baseEnv.now)], []⟩) ∧
    (field_action baseEnv none ⟨"t1", "timestamp", none, false, none, [], false⟩ =
      .ok .skip ∧
     make_test_object baseEnv none [⟨"t1", "timestamp", none, false, none, [], false⟩] =
      .ok ⟨[], []⟩) :=
  ⟨(C9_amended baseEnv none ⟨"d1", "date", none, false, none, [], false⟩ rfl rfl).1 rfl,
   (C9_amended baseEnv none ⟨"t1", "timestamp", none, false, none, [], false⟩ rfl rfl).2 rfl⟩

/-- C10: a `sequence` or `binary` field without `from`/`values` is left
entirely absent from the synthesized object (no key assigned), even though
both types are accepted by the field-definition validation. -/
theorem C10_theorem (env : Env) (parent : Option ParentInfo) (f : FieldDef)
    (hfrom : f.from_ = none) (hvals : f.values = [])
    (htype : f.type = "sequence" ∨ f.type = "binary") :
    field_action env parent f = .ok .skip ∧
    make_test_object env parent [f] = .ok ⟨[], []⟩ ∧
    field_type_recognized "sequence" = true ∧
    field_type_recognized "binary" = true := by
  have ha : field_action env parent f = .ok .skip := by
    rcases htype with h | h <;> (unfold field_action; rw [hfrom, hvals, h]; rfl)
  refine ⟨ha, ?_, rfl, rfl⟩
  unfold make_test_object mto_go
  rw [ha]
  rfl

/-- C10 witness: the statement evaluated on a concrete `sequence` field. -/
theorem C10_witness :
    field_action baseEnv none ⟨"s1", "sequence", none, false, none, [], false⟩ =
      .ok .skip ∧
    make_test_object baseEnv none [⟨"s1", "sequence", none, false, none, [], false⟩] =
      .ok ⟨[], []⟩ ∧
    field_type_recognized "sequence" = true ∧
    field_type_recognized "binary" = true :=
  C10_theorem baseEnv none ⟨"s1", "sequence", none, false, none, [], false⟩
    rfl rfl (Or.inl rfl)

end FluentRestTester
